import Mathlib

/-!
# Verification of the gophercon22 parser-combinator package

A shallow embedding of `parser/state.go`, `parser/parser.go`,
`parser/sequence.go` and the example configuration-language parser.

Go strings are embedded as lists of bytes (`List Nat`, each `< 256` on real
inputs); runes (code points) are embedded as `Nat`.  A Go parser
`func(state) (T, state, error)` becomes a fuel-indexed function
`Nat → state → Option (PResult T)`: `none` means the underlying Go loop has
not finished within the given fuel (so `∀ fuel, … = none` is divergence of
the Go code), `some (.ok v s')` a successful return `(v, s', nil)`, and
`some (.err e s')` a return `(zero, s', e)`.  The fuel is consumed one unit
per iteration of the two `for` loops in the source (`ConsumeWhile`, `Loop`);
all other combinators merely pass it through.
-/

namespace PComb

/-- A Unicode code point, as decoded by Go's `unicode/utf8`. -/
abbrev Rune := Nat

/-- Go's `utf8.RuneError` (U+FFFD), the replacement code point. -/
def runeError : Rune := 0xFFFD

/-- `state` from `parser/state.go`: the input string (as bytes) and the
current byte offset. -/
structure state where
  data : List Nat
  offset : Nat
deriving DecidableEq, Repr

/-- `state.remaining` from `parser/state.go`: the unconsumed input. -/
def state.remaining (s : state) : List Nat :=
  s.data.drop s.offset

/-- `state.consume` from `parser/state.go`: advance the offset by `n` bytes. -/
def state.consume (s : state) (n : Nat) : state :=
  { s with offset := s.offset + n }

/-- Whether a byte is a UTF-8 continuation byte (`0x80..0xBF`). -/
def isCont (b : Nat) : Bool :=
  decide (0x80 ≤ b) && decide (b ≤ 0xBF)

/-- Go's accept range for the second byte of a three-byte sequence
(rejecting overlong encodings and surrogates). -/
def accept3 (b0 b1 : Nat) : Bool :=
  if b0 == 0xE0 then decide (0xA0 ≤ b1) && decide (b1 ≤ 0xBF)
  else if b0 == 0xED then decide (0x80 ≤ b1) && decide (b1 ≤ 0x9F)
  else isCont b1

/-- Go's accept range for the second byte of a four-byte sequence
(rejecting overlong encodings and code points above U+10FFFF). -/
def accept4 (b0 b1 : Nat) : Bool :=
  if b0 == 0xF0 then decide (0x90 ≤ b1) && decide (b1 ≤ 0xBF)
  else if b0 == 0xF4 then decide (0x80 ≤ b1) && decide (b1 ≤ 0x8F)
  else isCont b1

/-- Modelled from Go's `utf8.DecodeRuneInString`: the first code point of
the byte sequence and its width in bytes.  Empty input gives
`(RuneError, 0)`; an invalid encoding gives `(RuneError, 1)`. -/
def utf8DecodeRune : List Nat → Rune × Nat
  | [] => (runeError, 0)
  | b0 :: rest =>
    if b0 < 0x80 then (b0, 1)
    else if b0 < 0xC2 || 0xF4 < b0 then (runeError, 1)
    else if b0 < 0xE0 then
      match rest with
      | b1 :: _ =>
        if isCont b1 then ((b0 - 0xC0) * 64 + (b1 - 0x80), 2)
        else (runeError, 1)
      | _ => (runeError, 1)
    else if b0 < 0xF0 then
      match rest with
      | b1 :: b2 :: _ =>
        if accept3 b0 b1 && isCont b2 then
          ((b0 - 0xE0) * 4096 + (b1 - 0x80) * 64 + (b2 - 0x80), 3)
        else (runeError, 1)
      | _ => (runeError, 1)
    else
      match rest with
      | b1 :: b2 :: b3 :: _ =>
        if accept4 b0 b1 && isCont b2 && isCont b3 then
          ((b0 - 0xF0) * 262144 + (b1 - 0x80) * 4096 + (b2 - 0x80) * 64 + (b3 - 0x80), 4)
        else (runeError, 1)
      | _ => (runeError, 1)

/-- `state.nextRune` from `parser/state.go`: the next rune in the input and
a new state in which the rune has been consumed. -/
def state.nextRune (s : state) : Rune × state :=
  let rw := utf8DecodeRune s.remaining
  (rw.1, s.consume rw.2)

/-- The two errors of `parser/parser.go`: `ErrNoMatch` and
`ErrUnconsumedInput`. -/
inductive Err where
  | noMatch
  | unconsumedInput
deriving DecidableEq, Repr

/-- The `(value, state, error)` triple a Go parser returns: `ok v s'` for
`(v, s', nil)`, `err e s'` for `(zero, s', e)`. -/
inductive PResult (T : Type) where
  | ok : T → state → PResult T
  | err : Err → state → PResult T
deriving DecidableEq

/-- The state component of a parser's return triple. -/
def PResult.state {T : Type} : PResult T → state
  | .ok _ s => s
  | .err _ s => s

/-- `Parser[T]` from `parser/parser.go`, fuel-indexed: `none` means the
parser's Go loops did not finish within the given fuel. -/
abbrev Parser (T : Type) : Type :=
  Nat → state → Option (PResult T)

/-- `Empty` from `parser/parser.go`. -/
structure Empty where
deriving DecidableEq, Repr

/-- `Fail[T]` from `parser/parser.go`. -/
def Fail {T : Type} : Parser T :=
  fun _ initial => some (.err .noMatch initial)

/-- `Succeed[T]` from `parser/parser.go`. -/
def Succeed {T : Type} (value : T) : Parser T :=
  fun _ initial => some (.ok value initial)

/-- `Map[T, A]` from `parser/parser.go`. -/
def Map {T A : Type} (parser : Parser T) (mapper : T → A) : Parser A :=
  fun fuel initial =>
    match parser fuel initial with
    | none => none
    | some (.err e _) => some (.err e initial)
    | some (.ok t next) => some (.ok (mapper t) next)

/-- `AndThen[T, U]` from `parser/parser.go`.  Note that on failure of the
handler's parser the result of that parser is returned verbatim, state
included. -/
def AndThen {T U : Type} (parser : Parser T) (handler : T → Parser U) : Parser U :=
  fun fuel initial =>
    match parser fuel initial with
    | none => none
    | some (.err e _) => some (.err e initial)
    | some (.ok t next) => handler t fuel next

/-- The `for` loop of `OneOf`, carrying the last error seen. -/
def oneOfGo {T : Type} (parsers : List (Parser T)) (fuel : Nat) (initial : state)
    (lastErr : Err) : Option (PResult T) :=
  match parsers with
  | [] => some (.err lastErr initial)
  | p :: rest =>
    match p fuel initial with
    | none => none
    | some (.ok result next) => some (.ok result next)
    | some (.err e _) => oneOfGo rest fuel initial e

/-- `OneOf[T]` from `parser/parser.go`. -/
def OneOf {T : Type} (parsers : List (Parser T)) : Parser T :=
  fun fuel initial => oneOfGo parsers fuel initial .noMatch

/-- `ConsumeIf` from `parser/parser.go`. -/
def ConsumeIf (condition : Rune → Bool) : Parser Empty :=
  fun _ initial =>
    let rs := initial.nextRune
    if condition rs.1 then some (.ok ⟨⟩ rs.2)
    else some (.err .noMatch initial)

/-- The `for` loop of `ConsumeWhile`, one unit of fuel per iteration. -/
def consumeWhileGo (condition : Rune → Bool) : Nat → state → Option (PResult Empty)
  | 0, _ => none
  | fuel + 1, current =>
    let rs := current.nextRune
    if condition rs.1 then consumeWhileGo condition fuel rs.2
    else some (.ok ⟨⟩ current)

/-- `ConsumeWhile` from `parser/parser.go`. -/
def ConsumeWhile (condition : Rune → Bool) : Parser Empty :=
  fun fuel initial => consumeWhileGo condition fuel initial

/-- `Exactly` from `parser/parser.go`. -/
def Exactly (token : List Nat) : Parser Empty :=
  fun _ initial =>
    if token.isPrefixOf initial.remaining then
      some (.ok ⟨⟩ (initial.consume token.length))
    else
      some (.err .noMatch initial)

/-- Go's slice `l[start:stop]`, as used by `GetString`. -/
def goSlice (l : List Nat) (start stop : Nat) : List Nat :=
  (l.drop start).take (stop - start)

/-- `GetString[T]` from `parser/parser.go`. -/
def GetString {T : Type} (parser : Parser T) : Parser (List Nat) :=
  fun fuel initial =>
    match parser fuel initial with
    | none => none
    | some (.err e _) => some (.err e initial)
    | some (.ok _ next) => some (.ok (goSlice next.data initial.offset next.offset) next)

/-- `Seq[T, U]` from `parser/sequence.go`. -/
structure Seq (T U : Type) where
  first : T
  second : U
deriving DecidableEq

/-- `StartKeeping[T]` from `parser/sequence.go`. -/
def StartKeeping {T : Type} (parser : Parser T) : Parser (Seq Empty T) :=
  Map parser (fun t => { first := ⟨⟩, second := t })

/-- `StartSkipping[T]` from `parser/sequence.go`. -/
def StartSkipping {T : Type} (parser : Parser T) : Parser Empty :=
  Map parser (fun _ => ⟨⟩)

/-- `AppendKeeping[T, U]` from `parser/sequence.go`. -/
def AppendKeeping {T U : Type} (parserT : Parser T) (parserU : Parser U) :
    Parser (Seq T U) :=
  fun fuel initial =>
    match parserT fuel initial with
    | none => none
    | some (.err e _) => some (.err e initial)
    | some (.ok t next) =>
      match parserU fuel next with
      | none => none
      | some (.err e _) => some (.err e initial)
      | some (.ok u final) => some (.ok { first := t, second := u } final)

/-- `AppendSkipping[T, U]` from `parser/sequence.go`. -/
def AppendSkipping {T U : Type} (parserT : Parser T) (parserU : Parser U) :
    Parser T :=
  fun fuel initial =>
    match parserT fuel initial with
    | none => none
    | some (.err e _) => some (.err e initial)
    | some (.ok t next) =>
      match parserU fuel next with
      | none => none
      | some (.err e _) => some (.err e initial)
      | some (.ok _ final) => some (.ok t final)

/-- `Apply[T, A]` from `parser/sequence.go`. -/
def Apply {T A : Type} (parser : Parser (Seq Empty T)) (mapper : T → A) : Parser A :=
  fun fuel initial =>
    match parser fuel initial with
    | none => none
    | some (.err e _) => some (.err e initial)
    | some (.ok seq next) => some (.ok (mapper seq.second) next)

/-- `Apply2[T, U, A]` from `parser/sequence.go`. -/
def Apply2 {T U A : Type} (parser : Parser (Seq (Seq Empty T) U))
    (mapper : T → U → A) : Parser A :=
  fun fuel initial =>
    match parser fuel initial with
    | none => none
    | some (.err e _) => some (.err e initial)
    | some (.ok seq next) => some (.ok (mapper seq.first.second seq.second) next)

/-- `Apply3[T, U, V, A]` from `parser/sequence.go`. -/
def Apply3 {T U V A : Type} (parser : Parser (Seq (Seq (Seq Empty T) U) V))
    (mapper : T → U → V → A) : Parser A :=
  fun fuel initial =>
    match parser fuel initial with
    | none => none
    | some (.err e _) => some (.err e initial)
    | some (.ok seq next) =>
      some (.ok (mapper seq.first.first.second seq.first.second seq.second) next)

/-- `ConsumeSome` from `parser/parser.go`, built exactly as in the source. -/
def ConsumeSome (condition : Rune → Bool) : Parser Empty :=
  AppendSkipping (StartSkipping (ConsumeIf condition)) (ConsumeWhile condition)

/-- `Step[A, T]` from `parser/state.go`. -/
structure Step (A T : Type) where
  Done : Bool
  Accum : A
  Value : T
deriving DecidableEq

/-- The `for` loop of `Loop`, one unit of fuel per iteration; `initial` is
the state at which `Loop` was entered, restored on failure. -/
def loopGo {A T : Type} (stepper : A → Parser (Step A T)) (initial : state) :
    Nat → A → state → Option (PResult T)
  | 0, _, _ => none
  | fuel + 1, accum, currentState =>
    match stepper accum fuel currentState with
    | none => none
    | some (.err e _) => some (.err e initial)
    | some (.ok step nextState) =>
      if step.Done then some (.ok step.Value nextState)
      else loopGo stepper initial fuel step.Accum nextState

/-- `Loop[A, T]` from `parser/state.go`. -/
def Loop {A T : Type} (startAccum : A) (stepper : A → Parser (Step A T)) : Parser T :=
  fun fuel initial => loopGo stepper initial fuel startAccum initial

/-- The outcome of `Parse[T]`: the `(T, error)` pair it returns. -/
inductive ParseOutcome (T : Type) where
  | ok : T → ParseOutcome T
  | error : Err → ParseOutcome T
deriving DecidableEq, Repr

/-- `Parse[T]` from `parser/parser.go`, again fuel-indexed. -/
def Parse {T : Type} (parser : Parser T) (data : List Nat) : Nat → Option (ParseOutcome T) :=
  fun fuel =>
    match parser fuel { data := data, offset := 0 } with
    | none => none
    | some (.err e _) => some (.error e)
    | some (.ok result final) =>
      if final.offset < final.data.length then some (.error .unconsumedInput)
      else some (.ok result)

namespace Example

/-- `isAsciiLetter` from the example package (bytes `a..z`, `A..Z`). -/
def isAsciiLetter (r : Rune) : Bool :=
  (decide (97 ≤ r) && decide (r ≤ 122)) || (decide (65 ≤ r) && decide (r ≤ 90))

/-- `isDecimalDigit` from the example package (bytes `0..9`). -/
def isDecimalDigit (r : Rune) : Bool :=
  decide (48 ≤ r) && decide (r ≤ 57)

/-- `isAlphaNum` from the example package. -/
def isAlphaNum (r : Rune) : Bool :=
  isAsciiLetter r || isDecimalDigit r

/-- `isWhitespace` from the example package (space, newline, tab). -/
def isWhitespace (r : Rune) : Bool :=
  r == 32 || r == 10 || r == 9

/-- `BindingValue` from the example package: `BindingInt` or `BindingBool`. -/
inductive BindingValue where
  | int : Int → BindingValue
  | bool : Bool → BindingValue
deriving DecidableEq, Repr

/-- `Binding` from the example package: `Name = Value`.  `Name` is a Go
string, hence a byte list here. -/
structure Binding where
  Name : List Nat
  Value : BindingValue
deriving DecidableEq, Repr

/-- Modelled from Go's `strconv.Atoi` restricted to the strings it receives
in the example (non-empty runs of decimal digits): the decimal value, or
`none` when the value overflows Go's 64-bit `int`. -/
def atoiDigits (digits : List Nat) : Option Int :=
  if digits.isEmpty then none
  else
    let n : Nat := digits.foldl (fun acc d => acc * 10 + (d - 48)) 0
    if n ≤ 9223372036854775807 then some (Int.ofNat n) else none

/-- `p.trueParser`: the byte literal is ASCII `"true"`. -/
def trueParser : Parser Bool :=
  Map (Exactly [116, 114, 117, 101]) (fun _ => true)

/-- `p.falseParser`: the byte literal is ASCII `"false"`. -/
def falseParser : Parser Bool :=
  Map (Exactly [102, 97, 108, 115, 101]) (fun _ => false)

/-- `p.boolParser` from the example package. -/
def boolParser : Parser Bool :=
  OneOf [trueParser, falseParser]

/-- `p.intParser` from the example package: a digit run, rejecting a
leading zero (byte 48) on multi-digit strings, then `strconv.Atoi`. -/
def intParser : Parser Int :=
  AndThen (GetString (ConsumeSome isDecimalDigit))
    (fun digits =>
      if digits.length > 1 && digits.head? == some 48 then Fail
      else
        match atoiDigits digits with
        | none => Fail
        | some v => Succeed v)

/-- `p.valueParser` from the example package. -/
def valueParser : Parser BindingValue :=
  OneOf [Map boolParser (fun v => BindingValue.bool v),
         Map intParser (fun i => BindingValue.int i)]

/-- `p.nameParser` from the example package. -/
def nameParser : Parser (List Nat) :=
  GetString (AndThen (ConsumeIf isAsciiLetter) (fun _ => ConsumeWhile isAlphaNum))

/-- `p.whitespaceParser` from the example package. -/
def whitespaceParser : Parser Empty :=
  ConsumeWhile isWhitespace

/-- `p.bindingParser` from the example package: `name ws "=" ws value`.
Byte 61 is ASCII `"="`. -/
def bindingParser : Parser Binding :=
  let s := StartKeeping nameParser
  let s1 := AppendSkipping s whitespaceParser
  let s2 := AppendSkipping s1 (Exactly [61])
  let s3 := AppendSkipping s2 whitespaceParser
  let s4 := AppendKeeping s3 valueParser
  Apply2 s4 (fun name value => { Name := name, Value := value })

/-- The stepper of `p.bindingsParser`.  The Go accumulator `*BindingList`
is a linked list with the most recent binding at its head and `nil` for the
empty list; it is embedded as a `List Binding` (`nil` ↔ `[]`, prepending a
node ↔ `::`).  The walk that materializes `bindingSlice` appends the
bindings starting from the head, so it yields the accumulator list itself.
Unset Go struct fields hold their zero values (`nil` slice ↔ `[]`,
`nil` pointer ↔ `[]`).  Bytes 44 and 32 are ASCII `","` and `" "`. -/
def bindingsStepper (bindings : List Binding) :
    Parser (Step (List Binding) (List Binding)) :=
  if bindings.isEmpty then
    Map bindingParser
      (fun binding => { Accum := [binding], Done := false, Value := [] })
  else
    let s := StartSkipping whitespaceParser
    let s1 := AppendSkipping s (Exactly [44])
    let s2 := AppendSkipping s1 whitespaceParser
    let s3 := AppendKeeping s2 bindingParser
    let extend := Apply s3
      (fun b => { Accum := b :: bindings, Done := false, Value := [] })
    OneOf [extend,
           Succeed { Value := bindings, Done := true, Accum := [] }]

/-- `p.bindingsParser` from the example package. -/
def bindingsParser : Parser (List Binding) :=
  Loop [] bindingsStepper

/-- `p.ConfigurationParser` from the example package:
`"[" ws bindings ws "]"`.  Bytes 91 and 93 are ASCII `"["` and `"]"`. -/
def ConfigurationParser : Parser (List Binding) :=
  let s := StartSkipping (Exactly [91])
  let s1 := AppendSkipping s whitespaceParser
  let s2 := AppendKeeping s1 bindingsParser
  let s3 := AppendSkipping s2 whitespaceParser
  let s4 := AppendSkipping s3 (Exactly [93])
  Apply s4 (fun b => b)

end Example

/-- The state invariant of `parser/state.go`: the offset stays within the
input (`0 ≤ offset` is inherent to `Nat`). -/
def GoodState (s : state) : Prop :=
  s.offset ≤ s.data.length

/-- A parser is sound when every state it returns (on success or failure)
carries the same input string and respects the offset invariant. -/
def Sound {T : Type} (p : Parser T) : Prop :=
  ∀ fuel s r, p fuel s = some r →
    r.state.data = s.data ∧ (GoodState s → GoodState r.state)

/-- The parsers built by composing the package's public creation and
combination functions.  `ConsumeSome`, `StartKeeping` and `StartSkipping`
are definitional compositions of the constructors below and are therefore
covered (see `built_consumeSome` and friends). -/
inductive Built : {T : Type} → Parser T → Prop where
  | fail {T : Type} : Built (Fail (T := T))
  | succeed {T : Type} (value : T) : Built (Succeed value)
  | map {T A : Type} {p : Parser T} (mapper : T → A) :
      Built p → Built (Map p mapper)
  | andThen {T U : Type} {p : Parser T} {handler : T → Parser U} :
      Built p → (∀ t, Built (handler t)) → Built (AndThen p handler)
  | oneOf {T : Type} {parsers : List (Parser T)} :
      (∀ p ∈ parsers, Built p) → Built (OneOf parsers)
  | consumeIf (condition : Rune → Bool) : Built (ConsumeIf condition)
  | consumeWhile (condition : Rune → Bool) : Built (ConsumeWhile condition)
  | exactly (token : List Nat) : Built (Exactly token)
  | getString {T : Type} {p : Parser T} : Built p → Built (GetString p)
  | appendKeeping {T U : Type} {p : Parser T} {q : Parser U} :
      Built p → Built q → Built (AppendKeeping p q)
  | appendSkipping {T U : Type} {p : Parser T} {q : Parser U} :
      Built p → Built q → Built (AppendSkipping p q)
  | apply {T A : Type} {p : Parser (Seq Empty T)} (mapper : T → A) :
      Built p → Built (Apply p mapper)
  | apply2 {T U A : Type} {p : Parser (Seq (Seq Empty T) U)} (mapper : T → U → A) :
      Built p → Built (Apply2 p mapper)
  | apply3 {T U V A : Type} {p : Parser (Seq (Seq (Seq Empty T) U) V)}
      (mapper : T → U → V → A) :
      Built p → Built (Apply3 p mapper)
  | loop {A T : Type} (startAccum : A) {stepper : A → Parser (Step A T)} :
      (∀ a, Built (stepper a)) → Built (Loop startAccum stepper)

/-! ## Helper lemmas -/

theorem utf8DecodeRune_width_le : ∀ l : List Nat, (utf8DecodeRune l).2 ≤ l.length
  | [] => by simp [utf8DecodeRune]
  | [b0] => by
    simp only [utf8DecodeRune]
    split_ifs <;> simp
  | [b0, b1] => by
    simp only [utf8DecodeRune]
    split_ifs <;> simp
  | [b0, b1, b2] => by
    simp only [utf8DecodeRune]
    split_ifs <;> simp
  | b0 :: b1 :: b2 :: b3 :: rest => by
    simp only [utf8DecodeRune]
    split_ifs <;> simp

theorem utf8DecodeRune_width_pos : ∀ l : List Nat, l ≠ [] → 1 ≤ (utf8DecodeRune l).2
  | [], h => absurd rfl h
  | [b0], _ => by
    simp only [utf8DecodeRune]
    split_ifs <;> simp
  | [b0, b1], _ => by
    simp only [utf8DecodeRune]
    split_ifs <;> simp
  | [b0, b1, b2], _ => by
    simp only [utf8DecodeRune]
    split_ifs <;> simp
  | b0 :: b1 :: b2 :: b3 :: rest, _ => by
    simp only [utf8DecodeRune]
    split_ifs <;> simp

theorem remaining_length (s : state) : s.remaining.length = s.data.length - s.offset := by
  simp [state.remaining]

theorem consume_data (s : state) (n : Nat) : (s.consume n).data = s.data := rfl

theorem consume_offset (s : state) (n : Nat) : (s.consume n).offset = s.offset + n := rfl

theorem nextRune_data (s : state) : s.nextRune.2.data = s.data := rfl

theorem nextRune_offset (s : state) :
    s.nextRune.2.offset = s.offset + (utf8DecodeRune s.remaining).2 := rfl

theorem nextRune_offset_le (s : state) (h : GoodState s) : GoodState s.nextRune.2 := by
  have h' : s.offset ≤ s.data.length := h
  have hw := utf8DecodeRune_width_le s.remaining
  rw [remaining_length] at hw
  show s.nextRune.2.offset ≤ s.nextRune.2.data.length
  rw [nextRune_data, nextRune_offset]
  omega

theorem nextRune_at_end (s : state) (h : s.data.length ≤ s.offset) :
    s.nextRune = (runeError, s) := by
  have hrem : s.remaining = [] := by
    rw [state.remaining, List.drop_eq_nil_iff]
    exact h
  simp [state.nextRune, hrem, utf8DecodeRune, state.consume]

theorem consumeWhileGo_ok (c : Rune → Bool) :
    ∀ fuel s r, consumeWhileGo c fuel s = some r →
      ∃ s', r = .ok ⟨⟩ s' ∧ s'.data = s.data ∧ s.offset ≤ s'.offset ∧
        (GoodState s → GoodState s')
  | 0, s, r => by simp [consumeWhileGo]
  | fuel + 1, s, r => by
    simp only [consumeWhileGo]
    split
    · intro h
      obtain ⟨s', hr, hdata, hoff, hgood⟩ := consumeWhileGo_ok c fuel s.nextRune.2 r h
      have hw := utf8DecodeRune_width_le s.remaining
      rw [remaining_length] at hw
      refine ⟨s', hr, by rw [hdata, nextRune_data], ?_, ?_⟩
      · have := nextRune_offset s
        omega
      · intro hg
        exact hgood (nextRune_offset_le s hg)
    · intro h
      obtain rfl : PResult.ok Empty.mk s = r := by
        simpa using h
      exact ⟨s, rfl, rfl, le_refl _, fun hg => hg⟩

theorem consumeWhileGo_stuck (c : Rune → Bool) (hc : c runeError = true) :
    ∀ fuel s, s.data.length ≤ s.offset → consumeWhileGo c fuel s = none
  | 0, _, _ => rfl
  | fuel + 1, s, h => by
    have hnr := nextRune_at_end s h
    simp only [consumeWhileGo, hnr, hc, if_pos]
    exact consumeWhileGo_stuck c hc fuel s h

theorem consumeWhileGo_term (c : Rune → Bool) (hc : c runeError = false) :
    ∀ n s, s.data.length - s.offset ≤ n →
      ∃ s', consumeWhileGo c (n + 1) s = some (.ok ⟨⟩ s')
  | 0, s, h => by
    have hnr := nextRune_at_end s (by omega)
    have h1 : s.nextRune.1 = runeError := by rw [hnr]
    refine ⟨s, ?_⟩
    simp [consumeWhileGo, h1, hc]
  | n + 1, s, h => by
    by_cases hcond : c s.nextRune.1 = true
    · rcases le_or_lt s.data.length s.offset with hend | hmid
      · have h1 : s.nextRune.1 = runeError := by rw [nextRune_at_end s hend]
        rw [h1, hc] at hcond
        exact absurd hcond (by simp)
      · have hrem : s.remaining ≠ [] := by
          have := remaining_length s
          intro hv
          rw [hv] at this
          simp at this
          omega
        have hw := utf8DecodeRune_width_pos s.remaining hrem
        have hmeas : s.nextRune.2.data.length - s.nextRune.2.offset ≤ n := by
          rw [nextRune_data, nextRune_offset]
          omega
        obtain ⟨s', hs'⟩ := consumeWhileGo_term c hc n s.nextRune.2 hmeas
        refine ⟨s', ?_⟩
        simp only [consumeWhileGo, hcond, if_pos]
        exact hs'
    · refine ⟨s, ?_⟩
      simp [consumeWhileGo, hcond]

theorem consumeWhileGo_nil_entry (c : Rune → Bool) (fuel : Nat) (s : state)
    (hcond : c s.nextRune.1 = false) :
    consumeWhileGo c (fuel + 1) s = some (.ok ⟨⟩ s) := by
  simp [consumeWhileGo, hcond]

theorem isPrefixOf_length_le : ∀ l₁ l₂ : List Nat, l₁.isPrefixOf l₂ → l₁.length ≤ l₂.length
  | [], _, _ => by simp
  | _ :: _, [], h => by simp [List.isPrefixOf] at h
  | a :: l₁, b :: l₂, h => by
    simp only [List.isPrefixOf, Bool.and_eq_true] at h
    have := isPrefixOf_length_le l₁ l₂ h.2
    simp [List.length_cons]
    omega

/-! ## Soundness of each combinator (data preserved, offset within bounds) -/

theorem sound_fail {T : Type} : Sound (Fail (T := T)) := by
  intro fuel s r h
  simp only [Fail, Option.some.injEq] at h
  subst h
  exact ⟨rfl, fun hg => hg⟩

theorem sound_succeed {T : Type} (value : T) : Sound (Succeed value) := by
  intro fuel s r h
  simp only [Succeed, Option.some.injEq] at h
  subst h
  exact ⟨rfl, fun hg => hg⟩

theorem sound_map {T A : Type} {p : Parser T} (mapper : T → A) (hp : Sound p) :
    Sound (Map p mapper) := by
  intro fuel s r h
  simp only [Map] at h
  cases hps : p fuel s with
  | none => rw [hps] at h; exact absurd h (by simp)
  | some pr =>
    rw [hps] at h
    cases pr with
    | err e s2 =>
      simp only [Option.some.injEq] at h
      subst h
      exact ⟨rfl, fun hg => hg⟩
    | ok t s2 =>
      simp only [Option.some.injEq] at h
      subst h
      exact hp fuel s _ hps

theorem sound_andThen {T U : Type} {p : Parser T} {handler : T → Parser U}
    (hp : Sound p) (hh : ∀ t, Sound (handler t)) : Sound (AndThen p handler) := by
  intro fuel s r h
  simp only [AndThen] at h
  cases hps : p fuel s with
  | none => rw [hps] at h; exact absurd h (by simp)
  | some pr =>
    rw [hps] at h
    cases pr with
    | err e s2 =>
      simp only [Option.some.injEq] at h
      subst h
      exact ⟨rfl, fun hg => hg⟩
    | ok t s2 =>
      obtain ⟨hd1, hg1⟩ := hp fuel s _ hps
      obtain ⟨hd2, hg2⟩ := hh t fuel s2 r h
      refine ⟨by rw [hd2]; exact hd1, fun hg => hg2 ?_⟩
      have : GoodState (PResult.ok t s2).state := hg1 hg
      exact this

theorem sound_oneOfGo {T : Type} :
    ∀ (parsers : List (Parser T)), (∀ p ∈ parsers, Sound p) →
      ∀ fuel s e r, oneOfGo parsers fuel s e = some r →
        r.state.data = s.data ∧ (GoodState s → GoodState r.state)
  | [], _, fuel, s, e, r => by
    intro h
    simp only [oneOfGo, Option.some.injEq] at h
    subst h
    exact ⟨rfl, fun hg => hg⟩
  | p :: rest, hs, fuel, s, e, r => by
    intro h
    simp only [oneOfGo] at h
    cases hps : p fuel s with
    | none => rw [hps] at h; exact absurd h (by simp)
    | some pr =>
      rw [hps] at h
      cases pr with
      | ok v s2 =>
        simp only [Option.some.injEq] at h
        subst h
        exact hs p (by simp) fuel s _ hps
      | err e2 s2 =>
        exact sound_oneOfGo rest (fun q hq => hs q (by simp [hq])) fuel s e2 r h

theorem sound_oneOf {T : Type} {parsers : List (Parser T)}
    (hs : ∀ p ∈ parsers, Sound p) : Sound (OneOf parsers) := by
  intro fuel s r h
  exact sound_oneOfGo parsers hs fuel s .noMatch r h

theorem sound_consumeIf (condition : Rune → Bool) : Sound (ConsumeIf condition) := by
  intro fuel s r h
  simp only [ConsumeIf] at h
  split at h
  · simp only [Option.some.injEq] at h
    subst h
    exact ⟨nextRune_data s, fun hg => nextRune_offset_le s hg⟩
  · simp only [Option.some.injEq] at h
    subst h
    exact ⟨rfl, fun hg => hg⟩

theorem sound_consumeWhile (condition : Rune → Bool) : Sound (ConsumeWhile condition) := by
  intro fuel s r h
  obtain ⟨s', hr, hdata, _, hgood⟩ := consumeWhileGo_ok condition fuel s r h
  subst hr
  exact ⟨hdata, hgood⟩

theorem sound_exactly (token : List Nat) : Sound (Exactly token) := by
  intro fuel s r h
  simp only [Exactly] at h
  split at h
  · simp only [Option.some.injEq] at h
    subst h
    constructor
    · rfl
    · intro hg
      have hg' : s.offset ≤ s.data.length := hg
      have hlen := isPrefixOf_length_le token s.remaining (by assumption)
      rw [remaining_length] at hlen
      show (s.consume token.length).offset ≤ (s.consume token.length).data.length
      rw [consume_data, consume_offset]
      omega
  · simp only [Option.some.injEq] at h
    subst h
    exact ⟨rfl, fun hg => hg⟩

theorem sound_getString {T : Type} {p : Parser T} (hp : Sound p) : Sound (GetString p) := by
  intro fuel s r h
  simp only [GetString] at h
  cases hps : p fuel s with
  | none => rw [hps] at h; exact absurd h (by simp)
  | some pr =>
    rw [hps] at h
    cases pr with
    | err e s2 =>
      simp only [Option.some.injEq] at h
      subst h
      exact ⟨rfl, fun hg => hg⟩
    | ok t s2 =>
      simp only [Option.some.injEq] at h
      subst h
      exact hp fuel s _ hps

theorem sound_appendKeeping {T U : Type} {p : Parser T} {q : Parser U}
    (hp : Sound p) (hq : Sound q) : Sound (AppendKeeping p q) := by
  intro fuel s r h
  simp only [AppendKeeping] at h
  split at h
  · exact absurd h (by simp)
  · simp only [Option.some.injEq] at h
    subst h
    exact ⟨rfl, fun hg => hg⟩
  · next t s2 hps =>
    obtain ⟨hd1, hg1⟩ := hp fuel s _ hps
    split at h
    · exact absurd h (by simp)
    · simp only [Option.some.injEq] at h
      subst h
      exact ⟨rfl, fun hg => hg⟩
    · next u s3 hqs =>
      simp only [Option.some.injEq] at h
      subst h
      obtain ⟨hd2, hg2⟩ := hq fuel s2 _ hqs
      exact ⟨hd2.trans hd1, fun hg => hg2 (hg1 hg)⟩

theorem sound_appendSkipping {T U : Type} {p : Parser T} {q : Parser U}
    (hp : Sound p) (hq : Sound q) : Sound (AppendSkipping p q) := by
  intro fuel s r h
  simp only [AppendSkipping] at h
  split at h
  · exact absurd h (by simp)
  · simp only [Option.some.injEq] at h
    subst h
    exact ⟨rfl, fun hg => hg⟩
  · next t s2 hps =>
    obtain ⟨hd1, hg1⟩ := hp fuel s _ hps
    split at h
    · exact absurd h (by simp)
    · simp only [Option.some.injEq] at h
      subst h
      exact ⟨rfl, fun hg => hg⟩
    · next u s3 hqs =>
      simp only [Option.some.injEq] at h
      subst h
      obtain ⟨hd2, hg2⟩ := hq fuel s2 _ hqs
      exact ⟨hd2.trans hd1, fun hg => hg2 (hg1 hg)⟩

theorem sound_apply {T A : Type} {p : Parser (Seq Empty T)} (mapper : T → A)
    (hp : Sound p) : Sound (Apply p mapper) := by
  intro fuel s r h
  simp only [Apply] at h
  cases hps : p fuel s with
  | none => rw [hps] at h; exact absurd h (by simp)
  | some pr =>
    rw [hps] at h
    cases pr with
    | err e s2 =>
      simp only [Option.some.injEq] at h
      subst h
      exact ⟨rfl, fun hg => hg⟩
    | ok t s2 =>
      simp only [Option.some.injEq] at h
      subst h
      exact hp fuel s _ hps

theorem sound_apply2 {T U A : Type} {p : Parser (Seq (Seq Empty T) U)}
    (mapper : T → U → A) (hp : Sound p) : Sound (Apply2 p mapper) := by
  intro fuel s r h
  simp only [Apply2] at h
  cases hps : p fuel s with
  | none => rw [hps] at h; exact absurd h (by simp)
  | some pr =>
    rw [hps] at h
    cases pr with
    | err e s2 =>
      simp only [Option.some.injEq] at h
      subst h
      exact ⟨rfl, fun hg => hg⟩
    | ok t s2 =>
      simp only [Option.some.injEq] at h
      subst h
      exact hp fuel s _ hps

theorem sound_apply3 {T U V A : Type} {p : Parser (Seq (Seq (Seq Empty T) U) V)}
    (mapper : T → U → V → A) (hp : Sound p) : Sound (Apply3 p mapper) := by
  intro fuel s r h
  simp only [Apply3] at h
  cases hps : p fuel s with
  | none => rw [hps] at h; exact absurd h (by simp)
  | some pr =>
    rw [hps] at h
    cases pr with
    | err e s2 =>
      simp only [Option.some.injEq] at h
      subst h
      exact ⟨rfl, fun hg => hg⟩
    | ok t s2 =>
      simp only [Option.some.injEq] at h
      subst h
      exact hp fuel s _ hps

theorem sound_loopGo {A T : Type} {stepper : A → Parser (Step A T)}
    (hs : ∀ a, Sound (stepper a)) (s0 : state) :
    ∀ fuel a cur r, cur.data = s0.data → (GoodState s0 → GoodState cur) →
      loopGo stepper s0 fuel a cur = some r →
      r.state.data = s0.data ∧ (GoodState s0 → GoodState r.state)
  | 0, a, cur, r => by
    intro _ _ h
    exact absurd h (by simp [loopGo])
  | fuel + 1, a, cur, r => by
    intro hdata hgood h
    simp only [loopGo] at h
    split at h
    · exact absurd h (by simp)
    · simp only [Option.some.injEq] at h
      subst h
      exact ⟨rfl, fun hg => hg⟩
    · next st s2 hstep =>
      obtain ⟨hd1, hg1⟩ := hs a fuel cur _ hstep
      rw [hdata] at hd1
      split at h
      · simp only [Option.some.injEq] at h
        subst h
        exact ⟨hd1, fun hg => hg1 (hgood hg)⟩
      · exact sound_loopGo hs s0 fuel st.Accum s2 r hd1 (fun hg => hg1 (hgood hg)) h

theorem sound_loop {A T : Type} (startAccum : A) {stepper : A → Parser (Step A T)}
    (hs : ∀ a, Sound (stepper a)) : Sound (Loop startAccum stepper) := by
  intro fuel s r h
  exact sound_loopGo hs s fuel startAccum s r rfl (fun hg => hg) h

/-- Every parser built from the package's public functions is sound. -/
theorem built_sound {T : Type} {p : Parser T} (hp : Built p) : Sound p := by
  induction hp with
  | fail => exact sound_fail
  | succeed value => exact sound_succeed value
  | map mapper _ ih => exact sound_map mapper ih
  | andThen _ _ ihp ihh => exact sound_andThen ihp ihh
  | oneOf _ ih => exact sound_oneOf ih
  | consumeIf condition => exact sound_consumeIf condition
  | consumeWhile condition => exact sound_consumeWhile condition
  | exactly token => exact sound_exactly token
  | getString _ ih => exact sound_getString ih
  | appendKeeping _ _ ihp ihq => exact sound_appendKeeping ihp ihq
  | appendSkipping _ _ ihp ihq => exact sound_appendSkipping ihp ihq
  | apply mapper _ ih => exact sound_apply mapper ih
  | apply2 mapper _ ih => exact sound_apply2 mapper ih
  | apply3 mapper _ ih => exact sound_apply3 mapper ih
  | loop startAccum _ ih => exact sound_loop startAccum ih

/-- `ConsumeSome` is covered by `Built` via its definition. -/
theorem built_consumeSome (condition : Rune → Bool) : Built (ConsumeSome condition) :=
  Built.appendSkipping (Built.map _ (Built.consumeIf condition))
    (Built.consumeWhile condition)

/-- `StartKeeping` is covered by `Built` via its definition. -/
theorem built_startKeeping {T : Type} {p : Parser T} (hp : Built p) :
    Built (StartKeeping p) :=
  Built.map _ hp

/-- `StartSkipping` is covered by `Built` via its definition. -/
theorem built_startSkipping {T : Type} {p : Parser T} (hp : Built p) :
    Built (StartSkipping p) :=
  Built.map _ hp

theorem oneOfGo_first_ok {T : Type} (fuel : Nat) (s : state) :
    ∀ (ps : List (Parser T)) (p : Parser T) (qs : List (Parser T)) (e0 : Err),
      (∀ q ∈ ps, ∃ e s2, q fuel s = some (.err e s2)) →
      ∀ v s', p fuel s = some (.ok v s') →
        oneOfGo (ps ++ p :: qs) fuel s e0 = some (.ok v s')
  | [], p, qs, e0, _, v, s', hp => by
    simp [oneOfGo, hp]
  | q :: ps, p, qs, e0, hfail, v, s', hp => by
    obtain ⟨e, s2, hq⟩ := hfail q (by simp)
    simp only [List.cons_append, oneOfGo, hq]
    exact oneOfGo_first_ok fuel s ps p qs e (fun q' hq' => hfail q' (by simp [hq'])) v s' hp

theorem oneOfGo_all_fail {T : Type} (fuel : Nat) (s : state) :
    ∀ (ps : List (Parser T)) (e0 : Err), ps ≠ [] →
      (∀ q ∈ ps, ∃ e s2, q fuel s = some (.err e s2)) →
      ∃ plast e s2, ps.getLast? = some plast ∧ plast fuel s = some (.err e s2) ∧
        oneOfGo ps fuel s e0 = some (.err e s)
  | [], _, h, _ => absurd rfl h
  | [p], e0, _, hfail => by
    obtain ⟨e, s2, hp⟩ := hfail p (by simp)
    exact ⟨p, e, s2, by simp, hp, by simp [oneOfGo, hp]⟩
  | p :: p2 :: ps, e0, _, hfail => by
    obtain ⟨e, s2, hp⟩ := hfail p (by simp)
    obtain ⟨plast, e', s2', h1, h2, h3⟩ :=
      oneOfGo_all_fail fuel s (p2 :: ps) e (by simp)
        (fun q hq => hfail q (by simp [hq]))
    refine ⟨plast, e', s2', ?_, h2, ?_⟩
    · rw [List.getLast?_cons_cons]
      exact h1
    · simp only [oneOfGo, hp]
      exact h3

/-! ## The claims -/

/-- C2: for every predicate, `ConsumeSome(predicate)` succeeds only when
the offset strictly advances (at least one code point is consumed), and on
an input state whose next code point does not satisfy the predicate it
fails with the state unchanged. -/
theorem claim_C2 (condition : Rune → Bool) :
    (∀ fuel s v s', ConsumeSome condition fuel s = some (.ok v s') →
      s.offset < s'.offset) ∧
    (∀ s, condition s.nextRune.1 = false →
      ∀ fuel, ConsumeSome condition fuel s = some (.err .noMatch s)) := by
  constructor
  · intro fuel s v s' h
    by_cases hcond : condition s.nextRune.1 = true
    · simp only [ConsumeSome, AppendSkipping, StartSkipping, Map, ConsumeIf, hcond,
        if_true] at h
      split at h
      · exact absurd h (by simp)
      · exact absurd h (by simp)
      · next u s3 hqs =>
        simp only [Option.some.injEq, PResult.ok.injEq] at h
        obtain ⟨-, rfl⟩ := h
        obtain ⟨s4, hr, -, hoff, -⟩ := consumeWhileGo_ok condition fuel s.nextRune.2 _ hqs
        obtain rfl : s4 = s3 := by
          cases hr
          rfl
        rcases le_or_lt s.data.length s.offset with hend | hmid
        · have h1 : s.nextRune = (runeError, s) := nextRune_at_end s hend
          rw [h1] at hcond
          rw [h1] at hqs hoff
          rw [ConsumeWhile, consumeWhileGo_stuck condition hcond fuel s hend] at hqs
          exact absurd hqs (by simp)
        · have hrem : s.remaining ≠ [] := by
            have := remaining_length s
            intro hv
            rw [hv] at this
            simp at this
            omega
          have hw := utf8DecodeRune_width_pos s.remaining hrem
          have := nextRune_offset s
          omega
    · rw [Bool.not_eq_true] at hcond
      simp [ConsumeSome, AppendSkipping, StartSkipping, Map, ConsumeIf, hcond] at h
  · intro s hcond fuel
    simp [ConsumeSome, AppendSkipping, StartSkipping, Map, ConsumeIf, hcond]

/-- C2 witness: at input `"b"`, `ConsumeSome` of the predicate accepting
only `"a"` fails without consuming. -/
theorem claim_C2_witness :
    ConsumeSome (fun r => decide (r = 97)) 0 (state.mk [98] 0) =
      some (.err .noMatch (state.mk [98] 0)) :=
  (claim_C2 (fun r => decide (r = 97))).2 (state.mk [98] 0) (by decide) 0

/-- C3 counterexample: `ConsumeWhile` of the always-true predicate,
applied at the end of the input, never terminates (no amount of fuel makes
the Go loop return), refuting termination for every predicate. -/
theorem claim_C3_counterexample :
    ¬ ∃ fuel r, ConsumeWhile (fun _ => true) fuel (state.mk [] 0) = some r := by
  rintro ⟨fuel, r, h⟩
  have hstuck := consumeWhileGo_stuck (fun _ => true) rfl fuel (state.mk [] 0) (by simp)
  rw [ConsumeWhile] at h
  rw [hstuck] at h
  exact absurd h (by simp)

/-- C3 (amended): for every predicate that does not hold of the
replacement code point `utf8.RuneError` and every input state,
`ConsumeWhile(predicate)` terminates, never fails, and when the code point
at the current position does not satisfy the predicate it consumes nothing
(the returned state equals the input state). -/
theorem claim_C3 (condition : Rune → Bool) (hc : condition runeError = false) (s : state) :
    (∃ s', ConsumeWhile condition (s.data.length - s.offset + 1) s = some (.ok ⟨⟩ s')) ∧
    (∀ fuel r, ConsumeWhile condition fuel s = some r → ∃ s', r = .ok ⟨⟩ s') ∧
    (condition s.nextRune.1 = false →
      ∀ fuel, ConsumeWhile condition (fuel + 1) s = some (.ok ⟨⟩ s)) := by
  refine ⟨?_, ?_, ?_⟩
  · exact consumeWhileGo_term condition hc (s.data.length - s.offset) s (le_refl _)
  · intro fuel r h
    obtain ⟨s', hr, -, -, -⟩ := consumeWhileGo_ok condition fuel s r h
    exact ⟨s', hr⟩
  · intro hcond fuel
    exact consumeWhileGo_nil_entry condition fuel s hcond

/-- C3 witness: the never-true predicate terminates at once on empty
input, consuming nothing. -/
theorem claim_C3_witness :
    ∃ s', ConsumeWhile (fun _ => false) 1 (state.mk [] 0) = some (.ok ⟨⟩ s') :=
  (claim_C3 (fun _ => false) rfl (state.mk [] 0)).1

/-- C5: `OneOf` on the empty list fails with `ErrNoMatch` and the state
unchanged; when the parsers before `p` all fail and `p` succeeds, `OneOf`
returns `p`'s result and state (the first listed success wins); and when
every parser in a non-empty list fails, `OneOf` returns the error of the
last parser in the list with the state unchanged. -/
theorem claim_C5 {T : Type} (fuel : Nat) (s : state) :
    (OneOf ([] : List (Parser T)) fuel s = some (.err .noMatch s)) ∧
    (∀ (ps : List (Parser T)) (p : Parser T) (qs : List (Parser T)),
      (∀ q ∈ ps, ∃ e s2, q fuel s = some (.err e s2)) →
      ∀ v s', p fuel s = some (.ok v s') →
        OneOf (ps ++ p :: qs) fuel s = some (.ok v s')) ∧
    (∀ ps : List (Parser T), ps ≠ [] →
      (∀ q ∈ ps, ∃ e s2, q fuel s = some (.err e s2)) →
      ∃ plast e s2, ps.getLast? = some plast ∧ plast fuel s = some (.err e s2) ∧
        OneOf ps fuel s = some (.err e s)) := by
  refine ⟨rfl, ?_, ?_⟩
  · intro ps p qs hfail v s' hp
    exact oneOfGo_first_ok fuel s ps p qs .noMatch hfail v s' hp
  · intro ps hne hfail
    exact oneOfGo_all_fail fuel s ps .noMatch hne hfail

/-- C5 witness: with alternatives `[Fail, Succeed 5]` the first success
(`Succeed 5`) wins. -/
theorem claim_C5_witness :
    OneOf [Fail, Succeed 5] 0 (state.mk [] 0) = some (.ok 5 (state.mk [] 0)) :=
  (claim_C5 0 (state.mk [] 0)).2.1 [Fail] (Succeed 5) []
    (by
      intro q hq
      simp only [List.mem_singleton] at hq
      subst hq
      exact ⟨.noMatch, state.mk [] 0, rfl⟩)
    5 (state.mk [] 0) rfl

/-- C6: `Loop` runs `loopGo` from its entry state, and at any iteration:
if the stepper's parser fails, the loop fails with that error and the
state at which `Loop` was entered (all intermediate consumption
discarded); if the step succeeds with `Done` set, the loop immediately
returns the step's `Value` with the cursor as advanced by that step. -/
theorem claim_C6 {A T : Type} (startAccum : A) (stepper : A → Parser (Step A T))
    (fuel : Nat) (initial : state) :
    (Loop startAccum stepper fuel initial = loopGo stepper initial fuel startAccum initial) ∧
    (∀ accum current e s2, stepper accum fuel current = some (.err e s2) →
      loopGo stepper initial (fuel + 1) accum current = some (.err e initial)) ∧
    (∀ accum current st s2, stepper accum fuel current = some (.ok st s2) →
      st.Done = true →
      loopGo stepper initial (fuel + 1) accum current = some (.ok st.Value s2)) := by
  refine ⟨rfl, ?_, ?_⟩
  · intro accum current e s2 h
    simp [loopGo, h]
  · intro accum current st s2 h hdone
    simp [loopGo, h, hdone]

/-- C6 witness: a stepper that always fails makes the loop fail and
restore the entry state. -/
theorem claim_C6_witness :
    loopGo (fun _ => Fail (T := Step Nat Nat)) (state.mk [97] 0) 1 0 (state.mk [97] 1) =
      some (.err .noMatch (state.mk [97] 0)) :=
  (claim_C6 0 (fun _ => Fail (T := Step Nat Nat)) 0 (state.mk [97] 0)).2.1
    0 (state.mk [97] 1) .noMatch (state.mk [97] 1) rfl

/-- C7 counterexample: `AndThen(Exactly "a", fun _ => Fail)` on input
`"ab"` fails, but the returned state has offset 1 (the state `Exactly "a"`
left), not the entry state with offset 0 — the entry state is not
restored when the handler's parser fails. -/
theorem claim_C7_counterexample :
    AndThen (Exactly [97]) (fun _ => Fail (T := Nat)) 1 (state.mk [97, 98] 0) =
      some (.err .noMatch (state.mk [97, 98] 1)) ∧
    state.mk [97, 98] 1 ≠ state.mk [97, 98] 0 :=
  ⟨by decide, by decide⟩

/-- C7 (amended): when `p` itself fails, `AndThen(p, handler)` returns
`p`'s error with the entry state; when `p` succeeds and the parser
returned by `handler` fails, `AndThen` returns that parser's failure with
the state that parser returned (which, for this package's parsers, is the
state `p` left — not the `AndThen` entry state). -/
theorem claim_C7 {T U : Type} (p : Parser T) (handler : T → Parser U)
    (fuel : Nat) (s : state) :
    (∀ e s2, p fuel s = some (.err e s2) →
      AndThen p handler fuel s = some (.err e s)) ∧
    (∀ t s1 e s2, p fuel s = some (.ok t s1) →
      handler t fuel s1 = some (.err e s2) →
      AndThen p handler fuel s = some (.err e s2)) := by
  constructor
  · intro e s2 h
    simp [AndThen, h]
  · intro t s1 e s2 h1 h2
    simp [AndThen, h1, h2]

/-- C7 witness: on input `"a"`, failing in the handler leaves the cursor
after the `"a"` consumed by the first parser. -/
theorem claim_C7_witness :
    AndThen (Exactly [97]) (fun _ => Fail (T := Nat)) 0 (state.mk [97] 0) =
      some (.err .noMatch (state.mk [97] 1)) :=
  (claim_C7 (Exactly [97]) (fun _ => Fail (T := Nat)) 0 (state.mk [97] 0)).2
    ⟨⟩ (state.mk [97] 1) .noMatch (state.mk [97] 1) (by decide) (by decide)

/-- C10: at a state whose offset equals the input length, `nextRune`
returns `utf8.RuneError` with a width of 0 bytes (state unchanged), so
`ConsumeIf` of any predicate accepting `RuneError` succeeds there while
consuming nothing. -/
theorem claim_C10 (s : state) (h : s.offset = s.data.length)
    (condition : Rune → Bool) (hc : condition runeError = true) :
    utf8DecodeRune s.remaining = (runeError, 0) ∧
    s.nextRune = (runeError, s) ∧
    ∀ fuel, ConsumeIf condition fuel s = some (.ok ⟨⟩ s) := by
  have hend : s.data.length ≤ s.offset := by omega
  have hrem : s.remaining = [] := by
    rw [state.remaining, List.drop_eq_nil_iff]
    exact hend
  have hnr := nextRune_at_end s hend
  refine ⟨by rw [hrem]; rfl, hnr, ?_⟩
  intro fuel
  simp [ConsumeIf, hnr, hc]

/-- C10 witness: on empty input, `ConsumeIf` of the always-true predicate
succeeds consuming nothing. -/
theorem claim_C10_witness :
    ConsumeIf (fun _ => true) 0 (state.mk [] 0) = some (.ok ⟨⟩ (state.mk [] 0)) :=
  (claim_C10 (state.mk [] 0) rfl (fun _ => true) rfl).2.2 0

/-- C4: for every package-built parser `p`, `Parse(p, s)` runs `p` from
offset 0 of `s`; if `p` fails, `Parse` returns `p`'s failure; if `p`
succeeds with a final offset strictly below the length of `s`, `Parse`
returns `ErrUnconsumedInput`; otherwise `Parse` returns `p`'s success
value with no error. -/
theorem claim_C4 {T : Type} (p : Parser T) (hp : Built p) (data : List Nat) (fuel : Nat) :
    (∀ e s', p fuel (state.mk data 0) = some (.err e s') →
      Parse p data fuel = some (.error e)) ∧
    (∀ v s', p fuel (state.mk data 0) = some (.ok v s') → s'.offset < data.length →
      Parse p data fuel = some (.error .unconsumedInput)) ∧
    (∀ v s', p fuel (state.mk data 0) = some (.ok v s') → ¬ s'.offset < data.length →
      Parse p data fuel = some (.ok v)) := by
  refine ⟨?_, ?_, ?_⟩
  · intro e s' h
    simp [Parse, h]
  · intro v s' h hlt
    have hdata : s'.data = data := (built_sound hp fuel _ _ h).1
    simp [Parse, h, hdata, hlt]
  · intro v s' h hge
    have hdata : s'.data = data := (built_sound hp fuel _ _ h).1
    simp [Parse, h, hdata, hge]

/-- C4 witness: `Succeed 0` on empty input consumes everything there is,
so `Parse` returns its value. -/
theorem claim_C4_witness :
    Parse (Succeed (0 : Nat)) [] 0 = some (.ok 0) :=
  (claim_C4 (Succeed 0) (Built.succeed 0) [] 0).2.2 0 (state.mk [] 0) rfl (by decide)

/-- C8: for every package-built parser `p`, whenever `p` succeeds,
`GetString(p)` succeeds with exactly the slice of the input between the
entry offset and the exit offset of `p` and leaves the cursor where `p`
left it; whenever `p` fails, `GetString(p)` returns `p`'s failure with the
state unchanged. -/
theorem claim_C8 {T : Type} (p : Parser T) (hp : Built p) (fuel : Nat) (s : state) :
    (∀ v s', p fuel s = some (.ok v s') →
      GetString p fuel s = some (.ok (goSlice s.data s.offset s'.offset) s')) ∧
    (∀ e s2, p fuel s = some (.err e s2) →
      GetString p fuel s = some (.err e s)) := by
  constructor
  · intro v s' h
    have hdata : s'.data = s.data := (built_sound hp fuel s _ h).1
    simp [GetString, h, hdata]
  · intro e s2 h
    simp [GetString, h]

/-- C8 witness: capturing `Exactly "a"` on input `"a"` returns the
substring `"a"` and the advanced cursor. -/
theorem claim_C8_witness :
    GetString (Exactly [97]) 0 (state.mk [97] 0) =
      some (.ok [97] (state.mk [97] 1)) :=
  (claim_C8 (Exactly [97]) (Built.exactly [97]) 0 (state.mk [97] 0)).1
    ⟨⟩ (state.mk [97] 1) (by decide)

/-- C9: every parser built by composing the package's public creation and
combination functions maps a state with `offset ≤ length(data)` to a
state (on success or failure) with `offset ≤ length(data)`; the lower
bound `0 ≤ offset` is inherent to the `Nat` offset. -/
theorem claim_C9 {T : Type} (p : Parser T) (hp : Built p) (fuel : Nat) (s : state)
    (hs : s.offset ≤ s.data.length) (r : PResult T) (h : p fuel s = some r) :
    r.state.offset ≤ r.state.data.length :=
  (built_sound hp fuel s r h).2 hs

/-- C9 witness: `Exactly "a"` on input `"a"` advances to offset 1, within
bounds. -/
theorem claim_C9_witness :
    (PResult.ok Empty.mk (state.mk [97] 1)).state.offset ≤
      (PResult.ok Empty.mk (state.mk [97] 1)).state.data.length :=
  claim_C9 (Exactly [97]) (Built.exactly [97]) 0 (state.mk [97] 0) (by decide)
    (PResult.ok Empty.mk (state.mk [97] 1)) (by decide)

/-- C1 (the code diverges from this claim): running the configuration
parser on `"[flag=true, count=42]"` succeeds but returns the bindings in
reverse input order — first `{count, Int 42}`, then `{flag, Bool true}` —
because the loop's accumulator list is prepended each iteration and
materialized at `Done` by walking from the head without reversal.  The
first conjunct evaluates the code's actual result; the second refutes the
claimed left-to-right order. -/
theorem claim_C1 :
    Parse Example.ConfigurationParser
        [91, 102, 108, 97, 103, 61, 116, 114, 117, 101, 44, 32,
         99, 111, 117, 110, 116, 61, 52, 50, 93] 50 =
      some (.ok [{ Name := [99, 111, 117, 110, 116], Value := .int 42 },
                 { Name := [102, 108, 97, 103], Value := .bool true }]) ∧
    Parse Example.ConfigurationParser
        [91, 102, 108, 97, 103, 61, 116, 114, 117, 101, 44, 32,
         99, 111, 117, 110, 116, 61, 52, 50, 93] 50 ≠
      some (.ok [{ Name := [102, 108, 97, 103], Value := .bool true },
                 { Name := [99, 111, 117, 110, 116], Value := .int 42 }]) :=
  ⟨by decide, by decide⟩

end PComb
